import Mathlib

/-!
Shallow embedding of `sample_without_cat90.py`
(`create_focused_sample_no_cat90`): a batch transform that builds a
focused sample of a COCO-style dataset excluding category 90.

Records carry exactly the fields the script reads (`id`, `file_name`,
`image_id`, `category_id`); the remaining fields are opaque passthrough
data and are not modelled.  Python's `Counter` is embedded as an
association list in key-first-occurrence order, `Counter.most_common`
as a stable descending sort by count, and the Mersenne-Twister based
`random.sample` as a deterministic sampler without replacement driven
by an explicitly threaded linear-congruential generator state seeded by
`random.seed(seed)`; every property proved below depends only on the
determinism, size and subset behaviour of `random.sample`, not on which
elements the generator happens to pick.
-/

set_option maxHeartbeats 1000000

/-- An entry of the input `images` list: the script reads `id` and
`file_name` only. -/
structure Image where
  id : Nat
  file_name : String
  deriving DecidableEq, Repr

/-- An entry of the input `annotations` list: the script reads
`image_id` and `category_id` only. -/
structure Annotation where
  image_id : Nat
  category_id : Nat
  deriving DecidableEq, Repr

/-- An entry of the input `categories` list; pure passthrough data. -/
structure Category where
  id : Nat
  name : String
  deriving DecidableEq, Repr

/-- The parsed JSON dataset: `data['images']`, `data['annotations']`,
`data['categories']` and the passthrough metadata
`data.get('info', {})`, `data.get('licenses', [])`. -/
structure Dataset where
  images : List Image
  annotations : List Annotation
  categories : List Category
  info : String
  licenses : List String
  deriving DecidableEq, Repr

/-! ### `collections.Counter`

`Counter(xs)` builds a multiset of counts whose keys appear in
first-occurrence order.  We embed it as an association list
`List (Nat × Nat)` built by folding `counterAdd` over the input. -/

/-- Add one occurrence of key `k` to the counter: bump the existing
entry, or append a fresh `(k, 1)` entry at the end (Python dicts append
new keys in insertion order). -/
def counterAdd : List (Nat × Nat) → Nat → List (Nat × Nat)
  | [], k => [(k, 1)]
  | (k', n) :: rest, k =>
    if k' = k then (k', n + 1) :: rest else (k', n) :: counterAdd rest k

/-- `Counter(ks)` for a list of keys. -/
def counter (ks : List Nat) : List (Nat × Nat) :=
  ks.foldl counterAdd []

/-- Look a key up in a counter, defaulting to 0 like `Counter.__getitem__`. -/
def lookupCount : List (Nat × Nat) → Nat → Nat
  | [], _ => 0
  | (k, n) :: rest, k' => if k = k' then n else lookupCount rest k'

/-- `category_counts = Counter(ann['category_id'] for ann in
data['annotations'] if ann['category_id'] != 90)` (line 46). -/
def category_counts (anns : List Annotation) : List (Nat × Nat) :=
  counter ((anns.filter (fun a => a.category_id != 90)).map (fun a => a.category_id))

/-- The ordering used by `Counter.most_common`: sort entries by count,
largest first.  Ties keep counter (insertion) order because
`List.orderedInsert` places an element before the first entry it is
`countGE`-related to, i.e. after every strictly larger count and before
equal ones. -/
def countGE (p q : Nat × Nat) : Prop := q.2 ≤ p.2

instance : DecidableRel countGE := fun p q => Nat.decLe q.2 p.2

instance : IsTotal (Nat × Nat) countGE := ⟨fun p q => Nat.le_total q.2 p.2⟩

instance : IsTrans (Nat × Nat) countGE := ⟨fun _ _ _ h h' => Nat.le_trans h' h⟩

/-- `Counter.most_common(n)`: the `n` entries with the largest counts,
sorted by count descending (stable). -/
def most_common (c : List (Nat × Nat)) (n : Nat) : List (Nat × Nat) :=
  (List.insertionSort countGE c).take n

/-- `top_categories = [cat_id for cat_id, _ in
category_counts.most_common(top_n_categories)]` (line 56). -/
def top_categories (anns : List Annotation) (top_n_categories : Nat) : List Nat :=
  (most_common (category_counts anns) top_n_categories).map Prod.fst

/-- Number of annotations carrying category id `k`; the measuring
function used to state ranking properties. -/
def annCount (anns : List Annotation) (k : Nat) : Nat :=
  anns.countP (fun a => a.category_id == k)

/-! ### The random number generator and `random.sample`

`random.seed(seed)` (line 31) initialises the process-wide generator
deterministically from the seed; `random.sample(pool, n)` draws `n`
distinct positions of `pool` without replacement, advancing the
generator.  The Mersenne Twister itself is opaque to every property in
this development, so it is embedded as a 32-bit linear congruential
generator threaded explicitly: what matters — and is preserved — is
that the state is a pure function of the seed and that each draw
removes the chosen position from the pool. -/

/-- The generator state set up by `random.seed(seed)` (line 31). -/
def seedState (seed : Nat) : Nat :=
  seed % 4294967296

/-- One step of the generator: a pseudorandom number and the next state. -/
def nextRand (s : Nat) : Nat × Nat :=
  let s2 := (1664525 * s + 1013904223) % 4294967296
  (s2 / 65536, s2)

/-- `random.sample(pool, n)`: draw `n` elements without replacement by
repeatedly removing a pseudorandomly chosen position.  (CPython raises
`ValueError` when `n > len(pool)`; the script always calls it with
`n = min(cap, len(pool))`, so that branch is unreachable and the
embedding simply stops early.) -/
def randomSample : Nat → List Image → Nat → List Image × Nat
  | s, _, 0 => ([], s)
  | s, [], _ + 1 => ([], s)
  | s, x :: xs, m + 1 =>
    let rs := nextRand s
    let i := rs.1 % (x :: xs).length
    let chosen := (x :: xs).get ⟨i, Nat.mod_lt _ (Nat.succ_pos xs.length)⟩
    let rest := (x :: xs).eraseIdx i
    let recres := randomSample rs.2 rest m
    (chosen :: recres.1, recres.2)

/-! ### The sampling pipeline (lines 63–102) -/

/-- `image_categories[i]`: the set of top-category ids annotated on
image `i`, built from the loop at lines 64–67 (`defaultdict(set)`;
only annotations whose category is in `top_categories` contribute).
Embedded as a deduplicated list; all uses are membership/emptiness. -/
def imageCatSet (anns : List Annotation) (top : List Nat) (i : Nat) : List Nat :=
  ((anns.filter (fun a => a.image_id == i && top.contains a.category_id)).map
    (fun a => a.category_id)).dedup

/-- `eligible_images` (lines 70–73): images whose id is a key of
`image_categories` with a nonempty category set. -/
def eligible_images (d : Dataset) (top : List Nat) : List Image :=
  d.images.filter (fun img => !(imageCatSet d.annotations top img.id).isEmpty)

/-- `category_image_map[cat]` (lines 78–81): the eligible images that
contain `cat`, in `eligible_images` order (the outer loop appends each
image once per category in its set). -/
def category_image_map (d : Dataset) (top : List Nat) (c : Nat) : List Image :=
  (eligible_images d top).filter (fun img => (imageCatSet d.annotations top img.id).contains c)

/-- One iteration of the sampling loop body (lines 86–88):
`sample_size = min(images_per_category, len(available_images));
sampled = random.sample(available_images, sample_size)`. -/
def drawForCategory (images_per_category : Nat) (pool : List Image) (s : Nat) :
    List Image × Nat :=
  randomSample s pool (min images_per_category pool.length)

/-- Insert an image id into the accumulated set (`sampled_image_ids.add`,
line 90), embedded as append-if-absent on a duplicate-free list. -/
def addId (ids : List Nat) (i : Nat) : List Nat :=
  if ids.contains i then ids else ids ++ [i]

/-- The sampling loop (lines 84–90): for each top category draw from its
pool, threading the generator state, and accumulate the chosen ids. -/
def sampled_image_ids (d : Dataset) (top_n_categories images_per_category seed : Nat) :
    List Nat :=
  let top := top_categories d.annotations top_n_categories
  (top.foldl
    (fun acc c =>
      let pool := category_image_map d top c
      let draw := drawForCategory images_per_category pool acc.2
      (draw.1.foldl (fun ids img => addId ids img.id) acc.1, draw.2))
    (([] : List Nat), seedState seed)).1

/-- `sampled_images = [img for img in data['images'] if img['id'] in
sampled_image_ids]` (line 92). -/
def sampled_images (d : Dataset) (top_n_categories images_per_category seed : Nat) :
    List Image :=
  d.images.filter
    (fun img => (sampled_image_ids d top_n_categories images_per_category seed).contains img.id)

/-- `sampled_annotations` (lines 99–102): annotations on a sampled image
whose category is not 90. -/
def sampled_annotations (d : Dataset) (top_n_categories images_per_category seed : Nat) :
    List Annotation :=
  d.annotations.filter
    (fun a =>
      (sampled_image_ids d top_n_categories images_per_category seed).contains a.image_id
        && a.category_id != 90)

/-- `sampled_data` (lines 129–135): the reduced dataset written to
`annotations.json` — filtered images and annotations, the original
category list and the passthrough metadata. -/
def sampled_data (d : Dataset) (top_n_categories images_per_category seed : Nat) : Dataset :=
  { images := sampled_images d top_n_categories images_per_category seed
    annotations := sampled_annotations d top_n_categories images_per_category seed
    categories := d.categories
    info := d.info
    licenses := d.licenses }

/-! ### Side effects (lines 137–194)

The effectful tail of the procedure — create directories, dump the
JSON, copy each selected image file that exists (counting the missing
ones), print the summary (whose annotations-per-image line divides by
`len(sampled_images)`), write the report — is embedded as an event
trace plus the `copied`/`missing` counters, with the filesystem
abstracted to the set of file names present in the source directory. -/

/-- An observable filesystem effect of the run, in program order. -/
inductive Event where
  | mkOutputDirs : Event
  | writeJson : Dataset → Event
  | copyFile : String → Event
  | writeReport : Event
  deriving DecidableEq, Repr

/-- The one unhandled fault the script can raise on well-formed input:
`len(sampled_annotations) / len(sampled_images)` at line 173 with no
sampled images. -/
inductive RunError where
  | zeroDivision : RunError
  deriving DecidableEq, Repr

/-- The copy loop's counters (lines 153–166): `copied` and `missing`. -/
def copyCounts (present : List String) (imgs : List Image) : Nat × Nat :=
  imgs.foldl
    (fun cm img =>
      if present.contains img.file_name then (cm.1 + 1, cm.2) else (cm.1, cm.2 + 1))
    (0, 0)

/-- The copy events: one `copyFile` per selected image whose file
exists; a missing file produces no event (it is only counted). -/
def copyEventList (present : List String) (imgs : List Image) : List Event :=
  imgs.filterMap
    (fun img =>
      if present.contains img.file_name then some (Event.copyFile img.file_name) else none)

/-- The outcome of one run: the effects that happened, the final copy
counters, and the fault if one was raised. -/
structure RunResult where
  events : List Event
  copied : Nat
  missing : Nat
  error : Option RunError
  deriving DecidableEq, Repr

/-- The effectful tail of `create_focused_sample_no_cat90` on a parsed
dataset: make the output directories, write `annotations.json`, run the
copy loop, then print the summary — which divides by the number of
sampled images (line 173) and so faults when none were sampled — and
finally write `category_info.txt`. -/
def runProgram (d : Dataset) (top_n_categories images_per_category seed : Nat)
    (present : List String) : RunResult :=
  let out := sampled_data d top_n_categories images_per_category seed
  let cm := copyCounts present out.images
  let evs := Event.mkOutputDirs :: Event.writeJson out :: copyEventList present out.images
  if out.images.length = 0 then
    { events := evs, copied := cm.1, missing := cm.2, error := some RunError.zeroDivision }
  else
    { events := evs ++ [Event.writeReport], copied := cm.1, missing := cm.2, error := none }

/-! ### Concrete datasets used to instantiate the theorems -/

/-- The three-image scenario from the specification: image 1 has a
category-1 annotation, image 2 has only a category-90 annotation,
image 3 has category-1 and category-2 annotations. -/
def dEx : Dataset :=
  { images := [⟨1, "a.jpg"⟩, ⟨2, "b.jpg"⟩, ⟨3, "c.jpg"⟩]
    annotations := [⟨1, 1⟩, ⟨2, 90⟩, ⟨3, 1⟩, ⟨3, 2⟩]
    categories := [⟨1, "stop"⟩, ⟨2, "yield"⟩, ⟨90, "misc"⟩]
    info := "mtsd"
    licenses := [] }

/-- A dataset with no annotations at all: no category is ever counted,
so no image is sampled. -/
def dEmpty : Dataset :=
  { images := [⟨1, "a.jpg"⟩]
    annotations := []
    categories := [⟨1, "stop"⟩]
    info := "mtsd"
    licenses := [] }

/-! ### Counter lemmas -/

theorem lookupCount_counterAdd_self (c : List (Nat × Nat)) (k : Nat) :
    lookupCount (counterAdd c k) k = lookupCount c k + 1 := by
  induction c with
  | nil => simp [counterAdd, lookupCount]
  | cons p rest ih =>
    obtain ⟨k', n⟩ := p
    by_cases h : k' = k
    · subst h
      simp [counterAdd, lookupCount]
    · simp [counterAdd, lookupCount, h, ih]

theorem lookupCount_counterAdd_ne (c : List (Nat × Nat)) (k k' : Nat)
    (h : k' ≠ k) : lookupCount (counterAdd c k) k' = lookupCount c k' := by
  induction c with
  | nil =>
    simp only [counterAdd, lookupCount, if_neg (Ne.symm h)]
  | cons p rest ih =>
    obtain ⟨k₀, n⟩ := p
    by_cases h0 : k₀ = k
    · subst h0
      simp [counterAdd, lookupCount, Ne.symm h]
    · simp only [counterAdd, if_neg h0]
      by_cases h1 : k₀ = k'
      · simp [lookupCount, h1]
      · simp [lookupCount, h1, ih]

theorem counterAdd_keys (c : List (Nat × Nat)) (k : Nat) :
    (counterAdd c k).map Prod.fst =
      if k ∈ c.map Prod.fst then c.map Prod.fst else c.map Prod.fst ++ [k] := by
  induction c with
  | nil => simp [counterAdd]
  | cons p rest ih =>
    obtain ⟨k₀, n⟩ := p
    by_cases h0 : k₀ = k
    · subst h0
      simp [counterAdd]
    · by_cases h1 : k ∈ rest.map Prod.fst
      · simp [counterAdd, h0, ih, h1, Ne.symm h0]
      · simp [counterAdd, h0, ih, h1, Ne.symm h0]

theorem counter_foldl_lookup (ks : List Nat) (c : List (Nat × Nat)) (k : Nat) :
    lookupCount (ks.foldl counterAdd c) k = lookupCount c k + ks.count k := by
  induction ks generalizing c with
  | nil => simp
  | cons k₀ rest ih =>
    by_cases h : k₀ = k
    · subst h
      simp [List.foldl_cons, ih, lookupCount_counterAdd_self, List.count_cons]
      omega
    · simp [List.foldl_cons, ih, lookupCount_counterAdd_ne c k₀ k (fun e => h e.symm),
        List.count_cons, h]

theorem counter_lookup (ks : List Nat) (k : Nat) :
    lookupCount (counter ks) k = ks.count k := by
  simpa [counter, lookupCount] using counter_foldl_lookup ks [] k

theorem counter_foldl_keys_mem (ks : List Nat) (c : List (Nat × Nat)) (k : Nat) :
    k ∈ (ks.foldl counterAdd c).map Prod.fst ↔ k ∈ c.map Prod.fst ∨ k ∈ ks := by
  induction ks generalizing c with
  | nil => simp
  | cons k₀ rest ih =>
    simp only [List.foldl_cons, ih, counterAdd_keys, List.mem_cons]
    by_cases h : k₀ ∈ c.map Prod.fst
    · simp only [if_pos h]
      constructor
      · rintro (hk | hk)
        · exact Or.inl hk
        · exact Or.inr (Or.inr hk)
      · rintro (hk | hk | hk)
        · exact Or.inl hk
        · exact Or.inl (by rw [hk]; exact h)
        · exact Or.inr hk
    · simp only [if_neg h, List.mem_append, List.mem_singleton]
      tauto

theorem counter_keys_mem (ks : List Nat) (k : Nat) :
    k ∈ (counter ks).map Prod.fst ↔ k ∈ ks := by
  simpa [counter] using counter_foldl_keys_mem ks [] k

theorem counter_foldl_keys_nodup (ks : List Nat) (c : List (Nat × Nat))
    (hc : (c.map Prod.fst).Nodup) : ((ks.foldl counterAdd c).map Prod.fst).Nodup := by
  induction ks generalizing c with
  | nil => exact hc
  | cons k₀ rest ih =>
    refine ih (counterAdd c k₀) ?_
    rw [counterAdd_keys]
    by_cases h : k₀ ∈ c.map Prod.fst
    · simpa [h] using hc
    · simp only [if_neg h]
      refine List.Nodup.append hc (List.nodup_singleton k₀) ?_
      intro x hx hx2
      rw [List.mem_singleton] at hx2
      subst hx2
      exact h hx

theorem counter_keys_nodup (ks : List Nat) : ((counter ks).map Prod.fst).Nodup := by
  simpa [counter] using counter_foldl_keys_nodup ks [] (by simp)

/-- In an association list whose keys are distinct, each entry's value
is its key's lookup. -/
theorem lookupCount_of_mem (c : List (Nat × Nat)) (hc : (c.map Prod.fst).Nodup)
    (k n : Nat) (h : (k, n) ∈ c) : lookupCount c k = n := by
  induction c with
  | nil => cases h
  | cons p rest ih =>
    obtain ⟨k₀, n₀⟩ := p
    rcases List.mem_cons.mp h with h0 | h0
    · injection h0 with e1 e2
      subst e1
      subst e2
      simp [lookupCount]
    · have hk : k₀ ≠ k := by
        intro e
        subst e
        have hnotin : k₀ ∉ rest.map Prod.fst := by
          simp only [List.map_cons] at hc
          exact (List.nodup_cons.mp hc).1
        exact hnotin (List.mem_map_of_mem Prod.fst h0)
      have hrest : (rest.map Prod.fst).Nodup := by
        simp only [List.map_cons] at hc
        exact hc.of_cons
      have := ih hrest h0
      simp [lookupCount, hk, this]

theorem mem_of_mem_keys (c : List (Nat × Nat)) (k : Nat)
    (h : k ∈ c.map Prod.fst) : (k, lookupCount c k) ∈ c := by
  induction c with
  | nil => simp at h
  | cons p rest ih =>
    obtain ⟨k₀, n₀⟩ := p
    by_cases hk : k₀ = k
    · subst hk
      simp [lookupCount]
    · have hmem : k ∈ rest.map Prod.fst := by
        simp only [List.map_cons, List.mem_cons] at h
        rcases h with h0 | h0
        · exact absurd h0.symm hk
        · exact h0
      simp only [lookupCount, if_neg hk]
      exact List.mem_cons_of_mem _ (ih hmem)

/-! ### `random.sample` lemmas -/

theorem randomSample_length (n : Nat) :
    ∀ (s : Nat) (pool : List Image), n ≤ pool.length →
      (randomSample s pool n).1.length = n := by
  induction n with
  | zero =>
    intro s pool _
    simp [randomSample]
  | succ m ih =>
    intro s pool h
    match pool with
    | [] => simp at h
    | x :: xs =>
      have hmod : (nextRand s).1 % (x :: xs).length < (x :: xs).length :=
        Nat.mod_lt _ (by simp)
      have hlen : ((x :: xs).eraseIdx ((nextRand s).1 % (x :: xs).length)).length
          = xs.length := by
        rw [List.length_eraseIdx, if_pos hmod]
        simp
      have hrec := ih (nextRand s).2 ((x :: xs).eraseIdx ((nextRand s).1 % (x :: xs).length))
        (by rw [hlen]; simpa using h)
      simp only [randomSample, List.length_cons]
      simp only [List.length_cons] at hrec
      omega

theorem randomSample_subset (n : Nat) :
    ∀ (s : Nat) (pool : List Image) (x : Image),
      x ∈ (randomSample s pool n).1 → x ∈ pool := by
  induction n with
  | zero =>
    intro s pool x hx
    simp [randomSample] at hx
  | succ m ih =>
    intro s pool x hx
    match pool with
    | [] => simp [randomSample] at hx
    | y :: ys =>
      simp only [randomSample, List.mem_cons] at hx
      rcases hx with hx | hx
      · rw [hx]
        exact List.get_mem _ _ _
      · exact List.eraseIdx_subset _ _ (ih _ _ _ hx)

/-! ### Claim theorems -/

/-- C1: every annotation in the output `annotations` list has a
category id different from the excluded value 90 — the filter at lines
99–102 drops every category-90 annotation. -/
theorem c1_no_category90_in_output (d : Dataset)
    (top_n_categories images_per_category seed : Nat) (a : Annotation)
    (h : a ∈ sampled_annotations d top_n_categories images_per_category seed) :
    a.category_id ≠ 90 := by
  rw [sampled_annotations, List.mem_filter] at h
  have h2 := h.2
  simp only [Bool.and_eq_true, bne_iff_ne, ne_eq] at h2
  exact h2.2

/-- Witness for C1 at the concrete three-image dataset. -/
theorem c1_no_category90_in_output_witness :
    (⟨1, 1⟩ : Annotation) ∈ sampled_annotations dEx 2 10 42 ∧
    (⟨1, 1⟩ : Annotation).category_id ≠ 90 :=
  ⟨by decide, c1_no_category90_in_output dEx 2 10 42 ⟨1, 1⟩ (by decide)⟩

/-- C2: assuming the data-model invariant that every annotation's image
id references an image of the input list, every image id referenced by
an output annotation is the id of some image of the output image list —
output annotations only mention sampled ids (line 101) and line 92
keeps every input image whose id was sampled. -/
theorem c2_annotation_image_in_output (d : Dataset)
    (top_n_categories images_per_category seed : Nat)
    (hinv : ∀ a ∈ d.annotations, ∃ img ∈ d.images, img.id = a.image_id)
    (a : Annotation)
    (ha : a ∈ sampled_annotations d top_n_categories images_per_category seed) :
    ∃ img ∈ sampled_images d top_n_categories images_per_category seed,
      img.id = a.image_id := by
  rw [sampled_annotations, List.mem_filter] at ha
  obtain ⟨hmem, hcond⟩ := ha
  simp only [Bool.and_eq_true] at hcond
  obtain ⟨img, himg, hid⟩ := hinv a hmem
  refine ⟨img, ?_, hid⟩
  rw [sampled_images, List.mem_filter]
  refine ⟨himg, ?_⟩
  rw [hid]
  exact hcond.1

/-- Witness for C2 at the concrete three-image dataset. -/
theorem c2_annotation_image_in_output_witness :
    (∀ a ∈ dEx.annotations, ∃ img ∈ dEx.images, img.id = a.image_id) ∧
    (⟨3, 2⟩ : Annotation) ∈ sampled_annotations dEx 2 10 42 ∧
    ∃ img ∈ sampled_images dEx 2 10 42, img.id = (⟨3, 2⟩ : Annotation).image_id :=
  ⟨by decide, by decide,
    c2_annotation_image_in_output dEx 2 10 42 (by decide) ⟨3, 2⟩ (by decide)⟩

/-- C3: the sampling stage is a pure function of the input and the
seed — `random.seed(seed)` at line 31 is the only source of
randomness, so two runs with equal parameters and equal seeds select
the same set of image ids. -/
theorem c3_selected_ids_deterministic (d : Dataset)
    (top_n_categories images_per_category : Nat) (seed1 seed2 : Nat)
    (h : seed1 = seed2) :
    (sampled_image_ids d top_n_categories images_per_category seed1).toFinset =
      (sampled_image_ids d top_n_categories images_per_category seed2).toFinset := by
  rw [h]

/-- Witness for C3 at the concrete three-image dataset. -/
theorem c3_selected_ids_deterministic_witness :
    (42 = 42) ∧
    (sampled_image_ids dEx 2 10 42).toFinset =
      (sampled_image_ids dEx 2 10 42).toFinset :=
  ⟨rfl, c3_selected_ids_deterministic dEx 2 10 42 42 rfl⟩

/-- C6: the output `categories` list is exactly the input `categories`
list — line 132 stores `data['categories']` unchanged. -/
theorem c6_categories_passthrough (d : Dataset)
    (top_n_categories images_per_category seed : Nat) :
    (sampled_data d top_n_categories images_per_category seed).categories =
      d.categories :=
  rfl

/-- C10: the output `images` and `annotations` lists are stable filters
of the corresponding input lists (lines 92 and 99–102), so each is a
sublist of its input list: surviving records keep their input relative
order. -/
theorem c10_output_order_preserved (d : Dataset)
    (top_n_categories images_per_category seed : Nat) :
    (sampled_images d top_n_categories images_per_category seed).Sublist d.images ∧
    (sampled_annotations d top_n_categories images_per_category seed).Sublist
      d.annotations :=
  ⟨List.filter_sublist _, List.filter_sublist _⟩

/-- C4: for every top category, any generator state reached when its
quota is drawn, and its eligible pool `category_image_map[cat]`, the
draw at lines 87–88 returns exactly `min(images_per_category, len(pool))`
images — hence at most the cap, at most the pool size, all taken from
the pool, and exactly the cap whenever the pool exceeds the cap. -/
theorem c4_quota_draw_size (d : Dataset) (top_n_categories images_per_category : Nat)
    (c : Nat) (s : Nat) :
    ((drawForCategory images_per_category
        (category_image_map d (top_categories d.annotations top_n_categories) c) s).1.length
      = min images_per_category
          (category_image_map d (top_categories d.annotations top_n_categories) c).length) ∧
    ((drawForCategory images_per_category
        (category_image_map d (top_categories d.annotations top_n_categories) c) s).1.length
      ≤ images_per_category) ∧
    ((drawForCategory images_per_category
        (category_image_map d (top_categories d.annotations top_n_categories) c) s).1.length
      ≤ (category_image_map d (top_categories d.annotations top_n_categories) c).length) ∧
    (∀ x ∈ (drawForCategory images_per_category
        (category_image_map d (top_categories d.annotations top_n_categories) c) s).1,
      x ∈ category_image_map d (top_categories d.annotations top_n_categories) c) ∧
    (images_per_category
        < (category_image_map d (top_categories d.annotations top_n_categories) c).length →
      (drawForCategory images_per_category
        (category_image_map d (top_categories d.annotations top_n_categories) c) s).1.length
        = images_per_category) := by
  have hlen := randomSample_length
    (min images_per_category
      (category_image_map d (top_categories d.annotations top_n_categories) c).length)
    s (category_image_map d (top_categories d.annotations top_n_categories) c)
    (Nat.min_le_right _ _)
  refine ⟨hlen, ?_, ?_, ?_, ?_⟩
  · rw [drawForCategory, hlen]
    exact Nat.min_le_left _ _
  · rw [drawForCategory, hlen]
    exact Nat.min_le_right _ _
  · intro x hx
    exact randomSample_subset _ _ _ _ hx
  · intro hcap
    rw [drawForCategory, hlen]
    exact Nat.min_eq_left (Nat.le_of_lt hcap)

/-- Witness for C4: in the concrete dataset, category 1 has an eligible
pool of two images and a cap of 1 forces a draw of exactly one image. -/
theorem c4_quota_draw_size_witness :
    1 < (category_image_map dEx (top_categories dEx.annotations 2) 1).length ∧
    (drawForCategory 1 (category_image_map dEx (top_categories dEx.annotations 2) 1)
      (seedState 42)).1.length = 1 :=
  ⟨by decide, (c4_quota_draw_size dEx 2 1 1 (seedState 42)).2.2.2.2 (by decide)⟩

/-- The copy loop counters in closed form: `copied` counts selected
images whose file exists, `missing` those whose file is absent. -/
theorem copyCounts_spec (present : List String) (imgs : List Image) :
    copyCounts present imgs
      = (imgs.countP (fun img => present.contains img.file_name),
         imgs.countP (fun img => !(present.contains img.file_name))) := by
  have hfold : ∀ (l : List Image) (a b : Nat),
      l.foldl
        (fun cm img =>
          if present.contains img.file_name then (cm.1 + 1, cm.2) else (cm.1, cm.2 + 1))
        (a, b)
        = (a + l.countP (fun img => present.contains img.file_name),
           b + l.countP (fun img => !(present.contains img.file_name))) := by
    intro l
    induction l with
    | nil => intro a b; simp
    | cons img rest ih =>
      intro a b
      by_cases h : present.contains img.file_name
      · simp only [List.foldl_cons, if_pos h, ih, List.countP_cons, h]
        simp only [Prod.mk.injEq]
        constructor
        any_goals simp
        any_goals omega
      · simp only [List.foldl_cons, if_neg h, ih, List.countP_cons, h]
        simp only [Prod.mk.injEq]
        constructor
        any_goals simp
        any_goals omega
  rw [copyCounts, hfold]
  simp

/-- The `missing` counter of a run, in closed form. -/
theorem runProgram_missing (d : Dataset) (top_n_categories images_per_category seed : Nat)
    (present : List String) :
    (runProgram d top_n_categories images_per_category seed present).missing
      = ((sampled_data d top_n_categories images_per_category seed).images.filter
          (fun i => !(present.contains i.file_name))).length := by
  rw [runProgram]
  by_cases h : (sampled_data d top_n_categories images_per_category seed).images.length = 0
  · simp only [if_pos h]
    rw [copyCounts_spec]
    exact List.countP_eq_length_filter _ _
  · simp only [if_neg h]
    rw [copyCounts_spec]
    exact List.countP_eq_length_filter _ _

/-- The event trace of a run whose sample is nonempty. -/
theorem runProgram_events_of_nonempty (d : Dataset)
    (top_n_categories images_per_category seed : Nat) (present : List String)
    (h : (sampled_data d top_n_categories images_per_category seed).images.length ≠ 0) :
    (runProgram d top_n_categories images_per_category seed present).events
      = (Event.mkOutputDirs
          :: Event.writeJson (sampled_data d top_n_categories images_per_category seed)
          :: copyEventList present
              (sampled_data d top_n_categories images_per_category seed).images)
        ++ [Event.writeReport]
      ∧ (runProgram d top_n_categories images_per_category seed present).error = none := by
  rw [runProgram]
  simp only [if_neg h]
  exact ⟨by simp, trivial⟩

/-- C7: a selected image whose file is absent from the source directory
is skipped by the copy loop (no copy event, no fault) and counted in
`missing` (lines 156–166), yet its record is in the JSON image list
written before the loop runs (lines 144–146). -/
theorem c7_missing_file_skipped_counted (d : Dataset)
    (top_n_categories images_per_category seed : Nat) (present : List String)
    (img : Image)
    (hsel : img ∈ sampled_images d top_n_categories images_per_category seed)
    (habsent : present.contains img.file_name = false) :
    0 < (runProgram d top_n_categories images_per_category seed present).missing ∧
    (runProgram d top_n_categories images_per_category seed present).missing
      = ((sampled_data d top_n_categories images_per_category seed).images.filter
          (fun i => !(present.contains i.file_name))).length ∧
    img ∈ (sampled_data d top_n_categories images_per_category seed).images ∧
    Event.copyFile img.file_name
      ∉ (runProgram d top_n_categories images_per_category seed present).events ∧
    (runProgram d top_n_categories images_per_category seed present).error = none ∧
    ∃ rest, (runProgram d top_n_categories images_per_category seed present).events
        = Event.mkOutputDirs
            :: Event.writeJson (sampled_data d top_n_categories images_per_category seed)
            :: rest := by
  have himgs : img ∈ (sampled_data d top_n_categories images_per_category seed).images := hsel
  have hne : (sampled_data d top_n_categories images_per_category seed).images.length ≠ 0 := by
    intro h0
    rw [List.length_eq_zero] at h0
    rw [h0] at himgs
    cases himgs
  have hmiss := runProgram_missing d top_n_categories images_per_category seed present
  have hrun := runProgram_events_of_nonempty d top_n_categories images_per_category seed
    present hne
  refine ⟨?_, hmiss, himgs, ?_, hrun.2, ?_⟩
  · rw [hmiss, ← List.countP_eq_length_filter, List.countP_pos_iff]
    refine ⟨img, himgs, ?_⟩
    rw [habsent]
    rfl
  · rw [hrun.1]
    intro hmem
    simp only [List.mem_cons, List.mem_append, List.mem_singleton] at hmem
    rcases hmem with (h | h | h) | h | h
    · cases h
    · cases h
    · obtain ⟨i, hi, hcopy⟩ := List.mem_filterMap.mp h
      by_cases hp : present.contains i.file_name
      · rw [if_pos hp] at hcopy
        injection hcopy with hname
        injection hname with hname2
        rw [hname2] at hp
        rw [habsent] at hp
        exact Bool.noConfusion hp
      · rw [if_neg hp] at hcopy
        cases hcopy
    · cases h
    · cases h
  · rw [hrun.1]
    exact ⟨copyEventList present (sampled_data d top_n_categories images_per_category seed).images
      ++ [Event.writeReport], rfl⟩

/-- Witness for C7: image 3 of the concrete dataset is selected but its
file is not in the source directory, which contains only image 1's. -/
theorem c7_missing_file_skipped_counted_witness :
    (⟨3, "c.jpg"⟩ : Image) ∈ sampled_images dEx 2 10 42 ∧
    (["a.jpg"] : List String).contains "c.jpg" = false ∧
    0 < (runProgram dEx 2 10 42 ["a.jpg"]).missing :=
  ⟨by decide, by decide,
    (c7_missing_file_skipped_counted dEx 2 10 42 ["a.jpg"] ⟨3, "c.jpg"⟩
      (by decide) (by decide)).1⟩

/-- C9: when no image is sampled, the run writes `annotations.json` and
then raises an unhandled `ZeroDivisionError` at the
annotations-per-image summary line (line 173), never reaching the
report; so completing the summary and report requires at least one
sampled image. -/
theorem c9_empty_sample_zero_division (d : Dataset)
    (top_n_categories images_per_category seed : Nat) (present : List String)
    (h : sampled_images d top_n_categories images_per_category seed = []) :
    (runProgram d top_n_categories images_per_category seed present).error
      = some RunError.zeroDivision ∧
    Event.writeJson (sampled_data d top_n_categories images_per_category seed)
      ∈ (runProgram d top_n_categories images_per_category seed present).events ∧
    Event.writeReport
      ∉ (runProgram d top_n_categories images_per_category seed present).events := by
  have h0 : (sampled_data d top_n_categories images_per_category seed).images.length = 0 := by
    show (sampled_images d top_n_categories images_per_category seed).length = 0
    rw [h]
    rfl
  have hevs : copyEventList present
      (sampled_data d top_n_categories images_per_category seed).images = [] := by
    show copyEventList present (sampled_images d top_n_categories images_per_category seed) = []
    rw [h]
    rfl
  refine ⟨?_, ?_, ?_⟩
  · rw [runProgram]
    simp only [if_pos h0]
  · rw [runProgram]
    simp only [if_pos h0]
    simp
  · rw [runProgram]
    simp only [if_pos h0, hevs]
    simp

/-- Witness for C9 at the dataset with no annotations, where nothing is
ever sampled. -/
theorem c9_empty_sample_zero_division_witness :
    sampled_images dEmpty 15 150 42 = [] ∧
    (runProgram dEmpty 15 150 42 ["a.jpg"]).error = some RunError.zeroDivision :=
  ⟨by decide,
    (c9_empty_sample_zero_division dEmpty 15 150 42 ["a.jpg"] (by decide)).1⟩

/-- C8: on the concrete three-image input (image 1 with a category-1
annotation, image 2 with only a category-90 annotation, image 3 with
category-1 and category-2 annotations), excluded category 90, two top
categories and a cap of 10, the output images are exactly images 1 and
3, no output annotation mentions image 2 or category 90, and the
category list is unchanged. -/
theorem c8_concrete_scenario :
    (sampled_data dEx 2 10 42).images = [⟨1, "a.jpg"⟩, ⟨3, "c.jpg"⟩] ∧
    ((sampled_data dEx 2 10 42).annotations.all
      (fun a => a.image_id != 2 && a.category_id != 90)) = true ∧
    (sampled_data dEx 2 10 42).categories = dEx.categories := by
  refine ⟨by decide, by decide, rfl⟩

/-! ### Ranking lemmas for `most_common` -/

theorem mem_most_common (c : List (Nat × Nat)) (n : Nat) (p : Nat × Nat)
    (h : p ∈ most_common c n) : p ∈ c :=
  (List.perm_insertionSort countGE c).mem_iff.mp (List.mem_of_mem_take h)

theorem most_common_sorted (c : List (Nat × Nat)) (n : Nat) :
    (most_common c n).Pairwise countGE :=
  List.Pairwise.sublist (List.take_sublist n (List.insertionSort countGE c))
    (List.sorted_insertionSort countGE c)

/-- Every entry kept by `most_common` has a count at least as large as
any counter entry it leaves out. -/
theorem most_common_dominates (c : List (Nat × Nat)) (n : Nat) (p q : Nat × Nat)
    (hp : p ∈ most_common c n) (hq : q ∈ c) (hq2 : q ∉ most_common c n) :
    q.2 ≤ p.2 := by
  have hq_s : q ∈ List.insertionSort countGE c :=
    (List.perm_insertionSort countGE c).mem_iff.mpr hq
  have hsorted : ((List.insertionSort countGE c).take n
      ++ (List.insertionSort countGE c).drop n).Pairwise countGE := by
    rw [List.take_append_drop]
    exact List.sorted_insertionSort countGE c
  have hkey := (List.pairwise_append.mp hsorted).2.2
  have hq_split : q ∈ (List.insertionSort countGE c).take n
      ++ (List.insertionSort countGE c).drop n := by
    rw [List.take_append_drop]
    exact hq_s
  rcases List.mem_append.mp hq_split with h | h
  · exact absurd h hq2
  · exact hkey p hp q h

theorem most_common_length (c : List (Nat × Nat)) (n : Nat) :
    (most_common c n).length = min n c.length := by
  rw [most_common, List.length_take,
    (List.perm_insertionSort countGE c).length_eq]

/-- The counter has exactly one entry per distinct key of its input. -/
theorem counter_length_eq_dedup (ks : List Nat) :
    (counter ks).length = ks.dedup.length := by
  have h1 : ((counter ks).map Prod.fst).toFinset = ks.dedup.toFinset := by
    ext k
    simp only [List.mem_toFinset, counter_keys_mem, List.mem_dedup]
  have h2 := List.toFinset_card_of_nodup (counter_keys_nodup ks)
  have h3 := List.toFinset_card_of_nodup (List.nodup_dedup ks)
  calc (counter ks).length
      = ((counter ks).map Prod.fst).length := (List.length_map _ _).symm
    _ = ((counter ks).map Prod.fst).toFinset.card := h2.symm
    _ = ks.dedup.toFinset.card := by rw [h1]
    _ = ks.dedup.length := h3

/-! ### `category_counts` lemmas -/

theorem category_counts_keys_nodup (anns : List Annotation) :
    ((category_counts anns).map Prod.fst).Nodup :=
  counter_keys_nodup _

/-- No key of `category_counts` is the excluded category 90. -/
theorem category_counts_key_ne_90 (anns : List Annotation) (k : Nat)
    (h : k ∈ (category_counts anns).map Prod.fst) : k ≠ 90 := by
  rw [category_counts, counter_keys_mem] at h
  obtain ⟨a, ha, hk⟩ := List.mem_map.mp h
  subst hk
  have := List.of_mem_filter ha
  simpa using this

/-- Every key of `category_counts` is the category of some annotation. -/
theorem category_counts_key_mem (anns : List Annotation) (k : Nat)
    (h : k ∈ (category_counts anns).map Prod.fst) :
    ∃ a ∈ anns, a.category_id = k := by
  rw [category_counts, counter_keys_mem] at h
  obtain ⟨a, ha, hk⟩ := List.mem_map.mp h
  exact ⟨a, List.mem_of_mem_filter ha, hk⟩

/-- Every non-excluded category of some annotation is a key of
`category_counts`. -/
theorem key_mem_category_counts (anns : List Annotation) (k : Nat) (hk : k ≠ 90)
    (h : ∃ a ∈ anns, a.category_id = k) :
    k ∈ (category_counts anns).map Prod.fst := by
  rw [category_counts, counter_keys_mem]
  obtain ⟨a, ha, hak⟩ := h
  refine List.mem_map.mpr ⟨a, List.mem_filter.mpr ⟨ha, ?_⟩, hak⟩
  rw [hak]
  simpa using hk

/-- The count stored for a non-excluded key is the number of
annotations of that category. -/
theorem category_counts_lookup (anns : List Annotation) (k : Nat) (hk : k ≠ 90) :
    lookupCount (category_counts anns) k = annCount anns k := by
  rw [category_counts, counter_lookup, annCount]
  rw [List.count_eq_countP, List.countP_map, List.countP_filter]
  refine List.countP_congr ?_
  intro a _
  simp only [Function.comp, Bool.and_eq_true, beq_iff_eq, bne_iff_ne, ne_eq]
  constructor
  · exact fun h => h.1
  · intro h
    refine ⟨h, ?_⟩
    rw [h]
    exact hk

/-- Each entry of `most_common (category_counts anns) N` stores the
annotation count of its category. -/
theorem most_common_entry_count (anns : List Annotation) (N : Nat) (k v : Nat)
    (h : (k, v) ∈ most_common (category_counts anns) N) :
    v = annCount anns k := by
  have hin := mem_most_common _ _ _ h
  have hkey : k ∈ (category_counts anns).map Prod.fst := by
    have := List.mem_map_of_mem Prod.fst hin
    simpa using this
  have hne := category_counts_key_ne_90 anns k hkey
  have hl := lookupCount_of_mem (category_counts anns) (category_counts_keys_nodup anns)
    k v hin
  rw [← hl, category_counts_lookup anns k hne]

/-- C5: the retained top-N list consists of category ids ordered by
annotation count descending, each distinct from 90 and present in the
input; any non-excluded category left out has a count no larger than
any retained one; and the list length is N capped by the number of
distinct non-excluded categories.  (Tie order among equal counts is the
counter's insertion order — deliberately not stated, as the spec calls
it implementation-defined.)  Annotations of category 90 are invisible
to the ranking: they are filtered out before counting (line 48). -/
theorem c5_top_categories_ranking (anns : List Annotation) (N : Nat) :
    ((top_categories anns N).Pairwise
      (fun k k2 => annCount anns k2 ≤ annCount anns k)) ∧
    (∀ k ∈ top_categories anns N, k ≠ 90 ∧ ∃ a ∈ anns, a.category_id = k) ∧
    (∀ k ∈ top_categories anns N, ∀ k2, k2 ∉ top_categories anns N → k2 ≠ 90 →
      (∃ a ∈ anns, a.category_id = k2) → annCount anns k2 ≤ annCount anns k) ∧
    (top_categories anns N).length
      = min N ((anns.filter (fun a => a.category_id != 90)).map
          (fun a => a.category_id)).dedup.length := by
  refine ⟨?_, ?_, ?_, ?_⟩
  · rw [top_categories, List.pairwise_map]
    refine List.Pairwise.imp_of_mem ?_ (most_common_sorted (category_counts anns) N)
    intro p q hp hq hpq
    obtain ⟨k, v⟩ := p
    obtain ⟨k2, v2⟩ := q
    have hcp := most_common_entry_count anns N k v hp
    have hcq := most_common_entry_count anns N k2 v2 hq
    have hpq2 : v2 ≤ v := hpq
    rw [hcp, hcq] at hpq2
    exact hpq2
  · intro k hk
    rw [top_categories] at hk
    obtain ⟨p, hp, hpk⟩ := List.mem_map.mp hk
    subst hpk
    have hin := mem_most_common _ _ _ hp
    have hkey := List.mem_map_of_mem Prod.fst hin
    exact ⟨category_counts_key_ne_90 anns p.1 hkey, category_counts_key_mem anns p.1 hkey⟩
  · intro k hk k2 hk2 hne90 hex
    rw [top_categories] at hk
    obtain ⟨p, hp, hpk⟩ := List.mem_map.mp hk
    subst hpk
    have hkey2 := key_mem_category_counts anns k2 hne90 hex
    have hq_mem : (k2, lookupCount (category_counts anns) k2) ∈ category_counts anns :=
      mem_of_mem_keys _ _ hkey2
    have hq_not : (k2, lookupCount (category_counts anns) k2)
        ∉ most_common (category_counts anns) N := by
      intro hmem
      apply hk2
      rw [top_categories]
      exact List.mem_map_of_mem Prod.fst hmem
    have hdom := most_common_dominates (category_counts anns) N p _ hp hq_mem hq_not
    obtain ⟨k, v⟩ := p
    have hcp := most_common_entry_count anns N k v hp
    rw [hcp] at hdom
    rw [category_counts_lookup anns k2 hne90] at hdom
    exact hdom
  · rw [top_categories, List.length_map, most_common_length, category_counts]
    rw [counter_length_eq_dedup]

/-- Witness for C5: with one top slot in the concrete dataset, category
1 is retained, category 2 is left out, and its count is no larger. -/
theorem c5_top_categories_ranking_witness :
    (1 ∈ top_categories dEx.annotations 1) ∧
    (2 ∉ top_categories dEx.annotations 1) ∧
    ((2 : Nat) ≠ 90) ∧
    (∃ a ∈ dEx.annotations, a.category_id = 2) ∧
    annCount dEx.annotations 2 ≤ annCount dEx.annotations 1 :=
  ⟨by decide, by decide, by decide, by decide,
    (c5_top_categories_ranking dEx.annotations 1).2.2.1 1 (by decide) 2
      (by decide) (by decide) (by decide)⟩
